import Mathlib

/-!
# AutoSync: a shallow embedding of `main.go`

The program scans a note vault for markdown files, selects the ones whose
name carries the publication marker, hands each one to the site generator,
and finally builds and pushes the site.

Go strings are modelled as lists of characters.  Every separator and marker
the program uses (`.`, `#`, `/`, `#pub#`) is ASCII, so on well-formed UTF-8 the
byte-level library functions and their character-level models coincide.
-/

namespace AutoSync

/-! ## Strings and the `strings` / `path` library functions the program calls -/

/-- A Go `string`. -/
abbrev GoString := List Char

/-- Model of `strings.Index`: position of the first occurrence of `substr` in
`s`; `none` stands for `-1`. -/
def Index : GoString → GoString → Option Nat
  | [], substr => if substr = [] then some 0 else none
  | c :: cs, substr =>
    if substr.isPrefixOf (c :: cs) then some 0
    else (Index cs substr).map (· + 1)

/-- The counting loop of `strings.Count` for a separator of two or more bytes:
find the next occurrence, count it, continue behind it.  The loop consumes at
least one character per round, so `s.length` rounds always suffice
(`countLoop_fuel`: more rounds change nothing). -/
def countLoop (substr : GoString) : Nat → GoString → Nat
  | 0, _ => 0
  | fuel + 1, s =>
    match Index s substr with
    | none => 0
    | some i => countLoop substr fuel (s.drop (i + substr.length)) + 1

/-- Model of `strings.Count`: the number of non-overlapping occurrences of
`substr` in `s` (one more than the number of characters for an empty `substr`,
a plain count of the byte for a one-byte `substr`). -/
def Count (s substr : GoString) : Nat :=
  match substr with
  | [] => s.length + 1
  | [b] => s.count b
  | _ => countLoop substr s.length s

/-- The loop of `strings.genSplit`: at most `n` times, cut at the next
occurrence of `sep`; what is left is the last piece. -/
def genSplitLoop (sep : GoString) : Nat → GoString → List GoString
  | 0, s => [s]
  | n + 1, s =>
    match Index s sep with
    | none => [s]
    | some m => s.take m :: genSplitLoop sep n (s.drop (m + sep.length))

/-- Model of `strings.Split(s, sep)` (that is `genSplit(s, sep, 0, -1)`): for
an empty separator the string is exploded into its characters; otherwise the
number of pieces is `Count(s, sep) + 1`, capped at `len(s) + 1`. -/
def Split (s sep : GoString) : List GoString :=
  if sep = [] then s.map (fun r => [r])
  else genSplitLoop sep (min (Count s sep + 1) (s.length + 1) - 1) s

/-- Model of `strings.Join`. -/
def Join (elems : List GoString) (sep : GoString) : GoString :=
  sep.intercalate elems

/-- The replacement loop of `strings.Replace` for a non-empty `old`: `n`
times, copy up to the next occurrence and write `new` in its place.  The
caller bounds `n` by `Count`, so the `none` branch is never taken. -/
def replaceLoop (old new : GoString) : Nat → GoString → GoString
  | 0, s => s
  | n + 1, s =>
    match Index s old with
    | none => s
    | some j => s.take j ++ new ++ replaceLoop old new n (s.drop (j + old.length))

/-- The replacement loop of `strings.Replace` for an empty `old`, after its
first round: copy one character, then write `new`. -/
def replaceEmptyLoop (new : GoString) : Nat → GoString → GoString
  | 0, s => s
  | _ + 1, [] => []
  | n + 1, c :: cs => c :: new ++ replaceEmptyLoop new n cs

/-- Model of `strings.Replace(s, old, new, n)`: the first `n` non-overlapping
occurrences of `old` are replaced by `new`; a negative `n` replaces all. -/
def Replace (s old new : GoString) (n : Int) : GoString :=
  if old = new ∨ n = 0 then s
  else
    let m := Count s old
    if m = 0 then s
    else
      let k : Nat := if n < 0 ∨ (m : Int) < n then m else n.toNat
      match old with
      | [] => new ++ replaceEmptyLoop new (k - 1) s
      | _ :: _ => replaceLoop old new k s

/-- Model of `path.Base`: the last element of a slash-separated path, after
trailing slashes are dropped; `.` for the empty path and `/` for a path made
of slashes only. -/
def Base (path : GoString) : GoString :=
  if path = [] then ".".data
  else
    let stripped := path.rdropWhile (· = '/')
    let last := stripped.rtakeWhile (· ≠ '/')
    if last = [] then "/".data else last

/-- The constant `os.PathSeparator` on Unix-like systems. -/
def PathSeparator : Char := '/'

/-! ## Configuration -/

structure BlogConfig where
  ProjectDir : GoString
  HugoBuildDir : GoString
  GithubPageDir : GoString
  PostsDir : GoString

structure SourceConfig where
  BaseDir : GoString
  Exclude : List GoString

structure Config where
  Blog : BlogConfig
  Src : SourceConfig

/-! ## Utility functions -/

/-- The function `IsIncludeElement(element, slice)`: linear search for an equal
element. -/
def IsIncludeElement (element : GoString) : List GoString → Bool
  | [] => false
  | elem :: slice => if element = elem then true else IsIncludeElement element slice

/-! ## The filesystem as seen by discovery -/

mutual
/-- What discovery finds at a path. -/
inductive FsNode where
  /-- Nothing that `os.Stat` can reach (no such path, or a dangling link) -/
  | missing : FsNode
  /-- Something `os.Stat` reaches that is not a directory -/
  | file : FsNode
  /-- The path is a directory on which `ioutil.ReadDir` fails -/
  | unreadable : FsNode
  /-- The path is a directory and `ioutil.ReadDir` returns this listing -/
  | dir (fs : FsList) : FsNode
/-- A directory listing: names with what lies behind each of them. -/
inductive FsList where
  | nil : FsList
  | cons (name : GoString) (node : FsNode) (rest : FsList) : FsList
end

/-- The function `IsDir(path)`, on what lies behind the path: false also when `os.Stat`
fails. -/
def IsDir : FsNode → Bool
  | .dir _ => true
  | .unreadable => true
  | .file => false
  | .missing => false

/-- The call `ioutil.ReadDir(path)`, on what lies behind the path: the listing,
or `none` when the call returns an error. -/
def ReadDir : FsNode → Option FsList
  | .dir fs => some fs
  | .unreadable => none
  | .file => none
  | .missing => none

/-- The state threaded through discovery: the accumulator `*files` of the
source, and a record of every entry `CollectMarkdownFiles` was called on (a
ghost field, absent from the source, used to speak about where the traversal
goes). -/
structure Walk where
  files : List GoString
  visited : List GoString
  deriving DecidableEq

mutual
/-- The function `CollectMarkdownFiles(config, entry, files)`, with the node that the
filesystem holds at `entry` as third argument.  A directory is listed and
every child whose name is not excluded is visited at
`entry + separator + name`; anything else is appended to the accumulator when
`entry`, split on `.`, has a piece `md`.  The recursion goes by cases on the
node; `CollectMarkdownFiles_eq` restates it with the tests `IsDir` and
`ReadDir` of the source. -/
def CollectMarkdownFiles (config : Config) : GoString → FsNode → Walk → Walk
  | entry, .dir fs, st => collectLoop config entry fs ⟨st.files, st.visited ++ [entry]⟩
  | entry, .unreadable, st => ⟨st.files, st.visited ++ [entry]⟩
  | entry, .file, st =>
    if IsIncludeElement "md".data (Split entry ".".data) then
      ⟨st.files ++ [entry], st.visited ++ [entry]⟩
    else ⟨st.files, st.visited ++ [entry]⟩
  | entry, .missing, st =>
    if IsIncludeElement "md".data (Split entry ".".data) then
      ⟨st.files ++ [entry], st.visited ++ [entry]⟩
    else ⟨st.files, st.visited ++ [entry]⟩
/-- The `for _, file := range fs` loop of `CollectMarkdownFiles`. -/
def collectLoop (config : Config) : GoString → FsList → Walk → Walk
  | _, .nil, st => st
  | entry, .cons name node rest, st =>
    if IsIncludeElement name config.Src.Exclude then collectLoop config entry rest st
    else
      collectLoop config entry rest
        (CollectMarkdownFiles config (entry ++ [PathSeparator] ++ name) node st)
end

/-! ## The publication filter -/

/-- The function `FilterNotPublishedMarkdownFile(files)`: the loop appends to `res` every
file name which, split on `#`, has a piece `pub`. -/
def FilterNotPublishedMarkdownFile (files : List GoString) : List GoString :=
  files.foldl
    (fun res filename =>
      if IsIncludeElement "pub".data (Split filename "#".data) then res ++ [filename]
      else res)
    []

/-! ## Effects -/

/-- File contents. -/
abbrev Bytes := List Nat

/-- The observable actions of the program, in the order they are performed. -/
inductive Effect where
  /-- A line logged with `log.Default().Println(line)` -/
  | println (line : GoString)
  /-- A call of `os.Chdir(dir)` -/
  | chdir (dir : GoString)
  /-- A call of `exec.Command(command, args...).Output()`: the process is started
  and waited for -/
  | exec (command : GoString) (args : List GoString)
  /-- A call of `os.Remove(path)` -/
  | remove (path : GoString)
  /-- A call of `ioutil.ReadFile(path)` -/
  | readFile (path : GoString)
  /-- A call of `ioutil.WriteFile(path, data, perm)` -/
  | writeFile (path : GoString) (data : Bytes) (perm : Nat)
  /-- A call of `os.Rename(oldpath, newpath)` -/
  | rename (oldpath newpath : GoString)
  /-- A call of `log.Fatalf`: the message is printed and the process exits with
  status 1 -/
  | fatal (msg : GoString)
  deriving DecidableEq

abbrev Trace := List Effect

/-- The environment: how external commands and file operations answer, given
everything the program has done so far.  An error is represented by its text
(`err.Error()`).  `pathJoin` stands for `path.Join` on two elements, whose
normalisation of the joined path is left uninterpreted. -/
structure World where
  execOutput : Trace → GoString → List GoString → Except GoString GoString
  readFile : Trace → GoString → Except GoString Bytes
  writeFile : Trace → GoString → Bytes → Option GoString
  pathJoin : GoString → GoString → GoString

/-- How a piece of the program ends: it returns to its caller, or the process
has exited. -/
inductive Run where
  | returned (tr : Trace)
  | exited (tr : Trace)
  deriving DecidableEq

/-- Sequencing: what follows runs only if the first part returned. -/
def Run.andThen : Run → (Trace → Run) → Run
  | .returned tr, k => k tr
  | .exited tr, _ => .exited tr

/-- The trace at the end of a run. -/
def Run.trace : Run → Trace
  | .returned tr => tr
  | .exited tr => tr

/-- The line `Command` logs for an invocation. -/
def invocationLine (command : GoString) (args : List GoString) : GoString :=
  Join ("👉🏼".data :: command :: args) " ".data

/-- The runner `Command(command, args...)(onError)`.  The process is run, then the
invocation is logged; on an error the callback runs and `log.Fatalf` ends the
process; otherwise non-empty output is logged.  A callback is modelled by the
effects it performs. -/
def Command (w : World) (command : GoString) (args : List GoString)
    (onError : GoString → List Effect) (tr : Trace) : Run :=
  let res := w.execOutput tr command args
  let tr := tr ++ [Effect.exec command args]
  let tr := tr ++ [Effect.println (invocationLine command args)]
  match res with
  | .error err =>
    let tr := tr ++ onError err
    .exited (tr ++ [Effect.fatal ("❌ An error occured!!!\n".data ++ err)])
  | .ok out =>
    if out.length > 0 then .returned (tr ++ [Effect.println ("✅ ".data ++ out)])
    else .returned tr

/-! ## Business functions -/

/-- The function `UpdateGithubPage(config)`: build the site, push the generated
page, push the project; every command goes through `Command` with an error
callback that does nothing. -/
def UpdateGithubPage (w : World) (config : Config) (tr : Trace) : Run :=
  let noop : GoString → List Effect := fun _ => []
  let commit := "\"✅Update by autosync\"".data
  let tr := tr ++ [Effect.println "📝 Building github page".data]
  let tr := tr ++ [Effect.chdir config.Blog.HugoBuildDir]
  (Command w "hugo".data [] noop tr).andThen fun tr =>
  let tr := tr ++ [Effect.println "📝 Pushing github page".data]
  let tr := tr ++ [Effect.chdir config.Blog.GithubPageDir]
  (Command w "git".data ["add".data, ".".data] noop tr).andThen fun tr =>
  (Command w "git".data ["commit".data, "-m".data, commit] noop tr).andThen fun tr =>
  (Command w "git".data ["push".data, "-u".data, "origin".data, "main".data] noop tr).andThen
    fun tr =>
  let tr := tr ++ [Effect.println "📝 Pushing project".data]
  let tr := tr ++ [Effect.chdir config.Blog.ProjectDir]
  (Command w "git".data ["add".data, ".".data] noop tr).andThen fun tr =>
  (Command w "git".data ["commit".data, "-m".data, commit] noop tr).andThen fun tr =>
  Command w "git".data ["push".data, "-u".data, "origin".data, "main".data] noop tr

/-- The published name `newPath` of `PrepareBlogPost`:
`strings.Replace(filename, "#pub#", "", 1)`. -/
def newPath (filename : GoString) : GoString :=
  Replace filename "#pub#".data [] 1

/-- The argument handed to `hugo new`: `posts`, the path separator and the
base name, joined with the empty string. -/
def scaffoldArg (base : GoString) : GoString :=
  Join ["posts".data, [PathSeparator], base] []

/-- The function `PrepareBlogPost(config, filenames)`: one round of the loop per
file. -/
def PrepareBlogPost (w : World) (config : Config) : List GoString → Trace → Run
  | [], tr => .returned tr
  | filename :: rest, tr =>
    let base := Base (newPath filename)
    let tr := tr ++ [Effect.println (newPath filename)]
    let tr := tr ++ [Effect.chdir config.Blog.HugoBuildDir]
    let dest := w.pathJoin config.Blog.PostsDir base
    (Command w "hugo".data ["new".data, scaffoldArg base]
      (fun _ => [Effect.remove dest]) tr).andThen fun tr =>
    match w.readFile tr filename with
    | .error err =>
      .exited (tr ++ [Effect.readFile filename, Effect.remove dest,
        Effect.fatal ("❌ An error occured while reading source file\n".data ++ err)])
    | .ok srcByte =>
      let tr := tr ++ [Effect.readFile filename]
      match w.writeFile tr dest srcByte with
      | some err =>
        .exited (tr ++ [Effect.writeFile dest srcByte 0o330, Effect.remove dest,
          Effect.fatal ("❌ An error occured while writing source file\n".data ++ err)])
      | none =>
        let tr := tr ++ [Effect.writeFile dest srcByte 0o330]
        let tr := tr ++ [Effect.rename filename (newPath filename)]
        PrepareBlogPost w config rest tr

/-- The body of `main` once `LoadConfig` has returned `config` (the lookup of
the home directory and of the configuration file, which precede it, perform
none of the effects recorded here unless they end the process).  `root` is
what the filesystem holds at `config.Src.BaseDir`. -/
def main (w : World) (config : Config) (root : FsNode) (tr : Trace) : Run :=
  let files := (CollectMarkdownFiles config config.Src.BaseDir root ⟨[], []⟩).files
  let notPublished := FilterNotPublishedMarkdownFile files
  (PrepareBlogPost w config notPublished tr).andThen fun tr =>
  if notPublished.length > 0 then UpdateGithubPage w config tr
  else .returned (tr ++ [Effect.println "📉 Noting to do".data])

/-! ## Notions used to state the properties -/

/-- The segment `seg` sits in `s` between two places that are each an end of
`s` or an occurrence of the separator `c`. -/
def IsPiece (c : Char) (seg s : GoString) : Prop :=
  ∃ a b, s = a ++ seg ++ b ∧ (a = [] ∨ [c] <:+ a) ∧ (b = [] ∨ [c] <+: b)

/-- The path the traversal builds when it goes down from `entry` through the
children `names`, one after the other. -/
def below (entry : GoString) (names : List GoString) : GoString :=
  names.foldl (fun e name => e ++ [PathSeparator] ++ name) entry

/-- The listing holds an entry `name` with `node` behind it. -/
inductive FsList.Holds : FsList → GoString → FsNode → Prop
  | head (name : GoString) (node : FsNode) (rest : FsList) :
      FsList.Holds (.cons name node rest) name node
  | tail (name : GoString) (node : FsNode) (rest : FsList) {n : GoString} {nd : FsNode} :
      FsList.Holds rest n nd → FsList.Holds (.cons name node rest) n nd

/-- Going down from a node through the directory entries `names`, one listed
child per level, leads to `target`. -/
inductive FsNode.Leads : FsNode → List GoString → FsNode → Prop
  | here (node : FsNode) : FsNode.Leads node [] node
  | down {fs : FsList} {name : GoString} {child : FsNode} {names : List GoString}
      {target : FsNode} :
      fs.Holds name child → FsNode.Leads child names target →
      FsNode.Leads (.dir fs) (name :: names) target

/-- The path `p` is what the traversal builds when it goes down from `entry`,
where `node` lies, through listed children none of whose names is excluded,
and arrives at a node with the property `P`. -/
def Reached (config : Config) (P : FsNode → Prop) (entry : GoString) (node : FsNode)
    (p : GoString) : Prop :=
  ∃ (names : List GoString) (target : FsNode),
    node.Leads names target ∧ P target ∧ (∀ n ∈ names, n ∉ config.Src.Exclude) ∧
      p = below entry names

/-- The same through one of the entries of a listing, whose name is not
excluded, the listing being that of the directory at `entry`. -/
def ReachedVia (config : Config) (P : FsNode → Prop) (entry : GoString) (fs : FsList)
    (p : GoString) : Prop :=
  ∃ (name : GoString) (child : FsNode),
    fs.Holds name child ∧ name ∉ config.Src.Exclude ∧
      Reached config P (entry ++ [PathSeparator] ++ name) child p

/-- A trace without its log lines: the commands, directory changes and file
operations. -/
def steps (tr : Trace) : Trace :=
  tr.filter fun e =>
    match e with
    | .println _ => false
    | _ => true

/-- What `Command` logs after a successful run: the output, if there is any. -/
def okLog (out : GoString) : List Effect :=
  if out.length > 0 then [Effect.println ("✅ ".data ++ out)] else []

/-- The commands and directory changes of a complete run of the publisher. -/
def publishSteps (config : Config) : List Effect :=
  [ Effect.chdir config.Blog.HugoBuildDir,
    Effect.exec "hugo".data [],
    Effect.chdir config.Blog.GithubPageDir,
    Effect.exec "git".data ["add".data, ".".data],
    Effect.exec "git".data ["commit".data, "-m".data, "\"✅Update by autosync\"".data],
    Effect.exec "git".data ["push".data, "-u".data, "origin".data, "main".data],
    Effect.chdir config.Blog.ProjectDir,
    Effect.exec "git".data ["add".data, ".".data],
    Effect.exec "git".data ["commit".data, "-m".data, "\"✅Update by autosync\"".data],
    Effect.exec "git".data ["push".data, "-u".data, "origin".data, "main".data] ]

/-- One step of a script of commands: a log line, a change of directory, or
an external command. -/
inductive Step where
  | say (line : GoString)
  | cd (dir : GoString)
  | run (command : GoString) (args : List GoString)

/-- The publisher as the spec lists it: build in the site directory, then add,
commit and push in the page repository, then the same in the project. -/
def publisherScript (config : Config) : List Step :=
  [ Step.say "📝 Building github page".data,
    Step.cd config.Blog.HugoBuildDir,
    Step.run "hugo".data [],
    Step.say "📝 Pushing github page".data,
    Step.cd config.Blog.GithubPageDir,
    Step.run "git".data ["add".data, ".".data],
    Step.run "git".data ["commit".data, "-m".data, "\"✅Update by autosync\"".data],
    Step.run "git".data ["push".data, "-u".data, "origin".data, "main".data],
    Step.say "📝 Pushing project".data,
    Step.cd config.Blog.ProjectDir,
    Step.run "git".data ["add".data, ".".data],
    Step.run "git".data ["commit".data, "-m".data, "\"✅Update by autosync\"".data],
    Step.run "git".data ["push".data, "-u".data, "origin".data, "main".data] ]

/-- The commands and directory changes a script asks for. -/
def scriptSteps : List Step → List Effect
  | [] => []
  | Step.say _ :: rest => scriptSteps rest
  | Step.cd dir :: rest => Effect.chdir dir :: scriptSteps rest
  | Step.run command args :: rest => Effect.exec command args :: scriptSteps rest

/-- A script run step by step, each command only if every command before it
succeeded: a command that fails is logged and ends the process, a command that
succeeds is logged with its output and the script goes on. -/
def runScript (w : World) : List Step → Trace → Run
  | [], tr => .returned tr
  | Step.say line :: rest, tr => runScript w rest (tr ++ [Effect.println line])
  | Step.cd dir :: rest, tr => runScript w rest (tr ++ [Effect.chdir dir])
  | Step.run command args :: rest, tr =>
    match w.execOutput tr command args with
    | .error err =>
      .exited (tr ++ [Effect.exec command args,
        Effect.println (invocationLine command args),
        Effect.fatal ("❌ An error occured!!!\n".data ++ err)])
    | .ok out =>
      runScript w rest
        (tr ++ [Effect.exec command args, Effect.println (invocationLine command args)]
          ++ okLog out)

/-! ## Example inputs -/

/-- A configuration for the examples. -/
def demoConfig : Config :=
  ⟨⟨"/blog".data, "/blog/site".data, "/blog/page".data, "/blog/site/content/posts".data⟩,
    ⟨"/vault".data, ["skip".data]⟩⟩

/-- The vault `/vault/a.md`, `/vault/b#pub#.md`, `/vault/skip/c#pub#.md`. -/
def demoVault : FsNode :=
  .dir (.cons "a.md".data .file (.cons "b#pub#.md".data .file
    (.cons "skip".data (.dir (.cons "c#pub#.md".data .file .nil)) .nil)))

/-- A vault without any file marked for publication. -/
def quietVault : FsNode :=
  .dir (.cons "a.md".data .file .nil)

/-- A world in which every command and file operation succeeds, without
output. -/
def calmWorld : World :=
  ⟨fun _ _ _ => .ok [], fun _ _ => .ok [35, 32, 98], fun _ _ _ => none,
    fun dir base => dir ++ "/".data ++ base⟩

/-- A world in which the site generator refuses to scaffold `posts/b.md` and
everything else succeeds. -/
def stubbornWorld : World :=
  ⟨fun _ _ args =>
      if args = ["new".data, "posts/b.md".data] then .error "exit status 1".data else .ok [],
    fun _ _ => .ok [35, 32, 98], fun _ _ _ => none,
    fun dir base => dir ++ "/".data ++ base⟩

/-- A world in which the build of the site fails and everything else
succeeds. -/
def brokenBuildWorld : World :=
  ⟨fun _ command args =>
      if command = "hugo".data ∧ args = [] then .error "exit status 255".data else .ok [],
    fun _ _ => .ok [35, 32, 98], fun _ _ _ => none,
    fun dir base => dir ++ "/".data ++ base⟩

/-! ## Facts about the string library model -/

theorem IsIncludeElement_iff (element : GoString) (slice : List GoString) :
    IsIncludeElement element slice = true ↔ element ∈ slice := by
  induction slice with
  | nil => simp [IsIncludeElement]
  | cons elem slice ih =>
    by_cases h : element = elem
    · simp [IsIncludeElement, h]
    · simp [IsIncludeElement, h, ih]

theorem Index_eq_none_of_not_infix (sub : GoString) :
    ∀ s : GoString, ¬ sub <:+: s → Index s sub = none
  | [], h => by
    have hne : sub ≠ [] := by
      rintro rfl
      exact h List.nil_infix
    simp [Index, hne]
  | c :: cs, h => by
    have h2 : ¬ sub <:+: cs := fun hi => h (hi.trans (List.suffix_cons c cs).isInfix)
    have ih := Index_eq_none_of_not_infix sub cs h2
    have h1 : sub.isPrefixOf (c :: cs) = false := by
      rw [Bool.eq_false_iff]
      intro hb
      exact h (List.isPrefixOf_iff_prefix.mp hb).isInfix
    simp [Index, h1, ih]

theorem Index_append_first (sub : GoString) (hsub : sub ≠ []) (b : GoString) :
    ∀ a : GoString, ¬ sub <:+: a ++ sub.dropLast →
      Index (a ++ sub ++ b) sub = some a.length
  | [], _ => by
    obtain ⟨c, cs, rfl⟩ := List.exists_cons_of_ne_nil hsub
    have hp : (c :: cs).isPrefixOf (c :: (cs ++ b)) = true :=
      List.isPrefixOf_iff_prefix.mpr ⟨b, rfl⟩
    show Index (c :: (cs ++ b)) (c :: cs) = some 0
    rw [Index, if_pos hp]
  | x :: a, h => by
    have hnp : sub.isPrefixOf (x :: (a ++ sub ++ b)) = false := by
      rw [Bool.eq_false_iff]
      intro hb
      have hp : sub <+: x :: (a ++ sub ++ b) := List.isPrefixOf_iff_prefix.mp hb
      have hp2 : (x :: a) ++ sub.dropLast <+: x :: (a ++ sub ++ b) := by
        refine ⟨[sub.getLast hsub] ++ b, ?_⟩
        rw [← List.append_assoc, List.append_assoc (x :: a),
          List.dropLast_append_getLast hsub]
        simp
      have hlen : sub.length ≤ ((x :: a) ++ sub.dropLast).length := by
        simp only [List.length_append, List.length_cons, List.length_dropLast]
        omega
      exact h (List.prefix_of_prefix_length_le hp hp2 hlen).isInfix
    have h2 : ¬ sub <:+: a ++ sub.dropLast :=
      fun hi => h (hi.trans (List.suffix_cons x _).isInfix)
    have ih := Index_append_first sub hsub b a h2
    show Index (x :: (a ++ sub ++ b)) sub = some (a.length + 1)
    rw [Index, hnp, ih]
    rfl

theorem Index_single (c : Char) (p r : GoString) (hp : c ∉ p) :
    Index (p ++ c :: r) [c] = some p.length := by
  have h := Index_append_first [c] (by simp) r p (by
    rintro ⟨s, t, hst⟩
    apply hp
    have : c ∈ s ++ [c] ++ t := by simp
    rw [hst] at this
    simpa using this)
  simpa using h

theorem Split_single (c : Char) (s : GoString) :
    Split s [c] = genSplitLoop [c] (s.count c) s := by
  have hle : s.count c ≤ s.length := List.count_le_length c s
  have : min (s.count c + 1) (s.length + 1) - 1 = s.count c := by omega
  simp [Split, Count, this]

theorem Split_of_not_mem (c : Char) (p : GoString) (hp : c ∉ p) : Split p [c] = [p] := by
  rw [Split_single, List.count_eq_zero_of_not_mem hp]
  rfl

theorem Split_append_cons (c : Char) (p r : GoString) (hp : c ∉ p) :
    Split (p ++ c :: r) [c] = p :: Split r [c] := by
  have hc : (p ++ c :: r).count c = r.count c + 1 := by
    simp [List.count_eq_zero_of_not_mem hp]
  rw [Split_single, Split_single, hc, genSplitLoop, Index_single c p r hp]
  simp

theorem Split_append_sep (c : Char) (v : GoString) :
    ∀ (n : Nat) (u : GoString), u.length ≤ n →
      Split (u ++ c :: v) [c] = Split u [c] ++ Split v [c]
  | n, u, hn => by
    by_cases hu : c ∈ u
    · obtain ⟨p, r, rfl, hp⟩ := List.eq_append_cons_of_mem hu
      cases n with
      | zero => simp at hn
      | succ n =>
        have hr : r.length ≤ n := by
          simp only [List.length_append, List.length_cons] at hn
          omega
        have ih := Split_append_sep c v n r hr
        rw [List.append_assoc, List.cons_append, Split_append_cons c p _ hp, ih,
          Split_append_cons c p r hp]
        rfl
    · rw [Split_append_cons c u v hu, Split_of_not_mem c u hu]
      rfl

theorem IsPiece_of_mem_Split (c : Char) (seg : GoString) :
    ∀ (n : Nat) (s : GoString), s.length ≤ n → seg ∈ Split s [c] → IsPiece c seg s
  | n, s, hn, hmem => by
    by_cases hs : c ∈ s
    · obtain ⟨p, r, rfl, hp⟩ := List.eq_append_cons_of_mem hs
      rw [Split_append_cons c p r hp, List.mem_cons] at hmem
      rcases hmem with rfl | hmem
      · exact ⟨[], c :: r, by simp, Or.inl rfl, Or.inr ⟨r, rfl⟩⟩
      · cases n with
        | zero => simp at hn
        | succ n =>
          have hr : r.length ≤ n := by
            simp only [List.length_append, List.length_cons] at hn
            omega
          obtain ⟨a, b, hab, ha, hb⟩ := IsPiece_of_mem_Split c seg n r hr hmem
          refine ⟨p ++ c :: a, b, by simp [hab], Or.inr ?_, hb⟩
          rcases ha with rfl | ha
          · exact ⟨p, rfl⟩
          · exact ha.trans ⟨p ++ [c], by simp⟩
    · rw [Split_of_not_mem c s hs, List.mem_singleton] at hmem
      subst hmem
      exact ⟨[], [], by simp, Or.inl rfl, Or.inl rfl⟩

theorem mem_Split_of_IsPiece (c : Char) (seg s : GoString) (hseg : c ∉ seg)
    (h : IsPiece c seg s) : seg ∈ Split s [c] := by
  obtain ⟨a, b, rfl, ha, hb⟩ := h
  have hright : ∀ b : GoString, (b = [] ∨ [c] <+: b) → seg ∈ Split (seg ++ b) [c] := by
    rintro b (rfl | ⟨b1, rfl⟩)
    · simp [Split_of_not_mem c seg hseg]
    · rw [List.singleton_append, Split_append_cons c seg b1 hseg]
      exact List.mem_cons_self _ _
  rcases ha with rfl | ⟨a1, rfl⟩
  · simpa using hright b hb
  · have : a1 ++ [c] ++ seg ++ b = a1 ++ c :: (seg ++ b) := by simp
    rw [this, Split_append_sep c (seg ++ b) a1.length a1 le_rfl]
    exact List.mem_append_right _ (hright b hb)

theorem mem_Split_iff_IsPiece (c : Char) (seg s : GoString) (hseg : c ∉ seg) :
    seg ∈ Split s [c] ↔ IsPiece c seg s :=
  ⟨IsPiece_of_mem_Split c seg s.length s le_rfl, mem_Split_of_IsPiece c seg s hseg⟩

theorem countLoop_fuel (sub : GoString) (hsub : sub ≠ []) :
    ∀ (n m : Nat) (s : GoString), s.length ≤ n → s.length ≤ m →
      countLoop sub n s = countLoop sub m s
  | 0, m, s, hn, _ => by
    have hs : s = [] := List.length_eq_zero.1 (Nat.le_zero.1 hn)
    subst hs
    cases m with
    | zero => rfl
    | succ m => simp [countLoop, Index, hsub]
  | n + 1, 0, s, _, hm => by
    have hs : s = [] := List.length_eq_zero.1 (Nat.le_zero.1 hm)
    subst hs
    simp [countLoop, Index, hsub]
  | n + 1, m + 1, s, hn, hm => by
    rw [countLoop, countLoop]
    cases Index s sub with
    | none => rfl
    | some i =>
      have hlen : 0 < sub.length := List.length_pos.2 hsub
      have hd : (s.drop (i + sub.length)).length ≤ n := by
        rw [List.length_drop]
        omega
      have hd2 : (s.drop (i + sub.length)).length ≤ m := by
        rw [List.length_drop]
        omega
      simp only []
      rw [countLoop_fuel sub hsub n m _ hd hd2]

theorem filterLoop_eq (p : GoString → Bool) (files : List GoString) :
    ∀ res : List GoString,
      files.foldl (fun res filename => if p filename then res ++ [filename] else res) res
        = res ++ files.filter p := by
  induction files with
  | nil => simp
  | cons f fs ih =>
    intro res
    by_cases hf : p f = true
    · simp [List.foldl_cons, hf, ih, List.filter_cons]
    · simp [List.foldl_cons, hf, ih, List.filter_cons]

theorem countLoop_pos_of_Index (sub s : GoString) (j : Nat) (hj : Index s sub = some j)
    (hs : s ≠ []) : countLoop sub s.length s ≠ 0 := by
  obtain ⟨n, hn⟩ : ∃ n, s.length = n + 1 :=
    Nat.exists_eq_succ_of_ne_zero (by simpa using hs)
  rw [hn, countLoop, hj]
  exact Nat.succ_ne_zero _

theorem newPath_of_first (a b : GoString) (h : ¬ "#pub#".data <:+: a ++ "#pub".data) :
    newPath (a ++ "#pub#".data ++ b) = a ++ b := by
  have hidx : Index (a ++ "#pub#".data ++ b) "#pub#".data = some a.length :=
    Index_append_first "#pub#".data (by decide) b a h
  have hne : a ++ "#pub#".data ++ b ≠ [] := by simp
  have hcount := countLoop_pos_of_Index _ _ _ hidx hne
  have hC : Count (a ++ "#pub#".data ++ b) "#pub#".data
      = countLoop "#pub#".data (a ++ "#pub#".data ++ b).length (a ++ "#pub#".data ++ b) := rfl
  have hk : (if (1 : Int) < 0 ∨
      ((Count (a ++ "#pub#".data ++ b) "#pub#".data : Nat) : Int) < 1
      then Count (a ++ "#pub#".data ++ b) "#pub#".data else (1 : Int).toNat) = 1 := by
    rw [if_neg]
    · rfl
    · rw [hC]
      omega
  have hold : ¬ ("#pub#".data = ([] : GoString) ∨ (1 : Int) = 0) := by decide
  unfold newPath Replace
  rw [if_neg hold]
  simp only []
  rw [if_neg (by rw [hC]; exact hcount), hk]
  show replaceLoop "#pub#".data [] 1 (a ++ "#pub#".data ++ b) = a ++ b
  rw [replaceLoop, hidx]
  simp [replaceLoop]

theorem newPath_of_absent (f : GoString) (h : ¬ "#pub#".data <:+: f) : newPath f = f := by
  have hidx := Index_eq_none_of_not_infix "#pub#".data f h
  have hC : Count f "#pub#".data = 0 := by
    show countLoop "#pub#".data f.length f = 0
    cases hl : f.length with
    | zero => rfl
    | succ n => rw [countLoop, hidx]
  unfold newPath Replace
  simp [hC]

theorem pub_mem_Split_iff (f : GoString) :
    "pub".data ∈ Split f "#".data ↔
      ("#pub#".data <:+: f ∨ "#pub".data <:+ f ∨ "pub#".data <+: f ∨ f = "pub".data) := by
  show "pub".data ∈ Split f ['#'] ↔ _
  rw [mem_Split_iff_IsPiece '#' "pub".data f (by decide)]
  constructor
  · rintro ⟨a, b, rfl, ha, hb⟩
    rcases ha with rfl | ⟨a1, rfl⟩
    · rcases hb with rfl | ⟨b1, rfl⟩
      · exact Or.inr (Or.inr (Or.inr (by simp)))
      · exact Or.inr (Or.inr (Or.inl ⟨b1, by simp⟩))
    · rcases hb with rfl | ⟨b1, rfl⟩
      · exact Or.inr (Or.inl ⟨a1, by simp⟩)
      · exact Or.inl ⟨a1, b1, by simp⟩
  · rintro (⟨a1, b1, rfl⟩ | ⟨a1, rfl⟩ | ⟨b1, rfl⟩ | rfl)
    · exact ⟨a1 ++ ['#'], ['#'] ++ b1, by simp, Or.inr ⟨a1, rfl⟩, Or.inr ⟨b1, rfl⟩⟩
    · exact ⟨a1 ++ ['#'], [], by simp, Or.inr ⟨a1, rfl⟩, Or.inl rfl⟩
    · exact ⟨[], ['#'] ++ b1, by simp, Or.inl rfl, Or.inr ⟨b1, rfl⟩⟩
    · exact ⟨[], [], by simp, Or.inl rfl, Or.inl rfl⟩

theorem Split_ne_nil (c : Char) (s : GoString) : Split s [c] ≠ [] := by
  by_cases hs : c ∈ s
  · obtain ⟨p, r, rfl, hp⟩ := List.eq_append_cons_of_mem hs
    rw [Split_append_cons c p r hp]
    exact List.cons_ne_nil _ _
  · rw [Split_of_not_mem c s hs]
    exact List.cons_ne_nil _ _

theorem Split_append_pieces (c : Char) (b : GoString) :
    ∀ (n : Nat) (a : GoString), a.length ≤ n →
      Split (a ++ b) [c] =
        (Split a [c]).dropLast
          ++ [(Split a [c]).getLastD [] ++ (Split b [c]).headD []]
          ++ (Split b [c]).tail
  | n, a, hn => by
    by_cases ha : c ∈ a
    · obtain ⟨p, r, rfl, hp⟩ := List.eq_append_cons_of_mem ha
      cases n with
      | zero => simp at hn
      | succ n =>
        have hr : r.length ≤ n := by
          simp only [List.length_append, List.length_cons] at hn
          omega
        have ih := Split_append_pieces c b n r hr
        obtain ⟨x, xs, hx⟩ := List.exists_cons_of_ne_nil (Split_ne_nil c r)
        rw [List.append_assoc, List.cons_append, Split_append_cons c p _ hp, ih,
          Split_append_cons c p r hp, hx]
        simp [List.dropLast, List.getLastD]
    · rw [Split_of_not_mem c a ha]
      by_cases hb : c ∈ b
      · obtain ⟨q, t, rfl, hq⟩ := List.eq_append_cons_of_mem hb
        have haq : c ∉ a ++ q := by simp [ha, hq]
        rw [← List.append_assoc, Split_append_cons c (a ++ q) t haq,
          Split_append_cons c q t hq]
        simp
      · have hab : c ∉ a ++ b := by simp [ha, hb]
        rw [Split_of_not_mem c (a ++ b) hab, Split_of_not_mem c b hb]
        simp


theorem selected_append_iff (a b : GoString) :
    IsIncludeElement "pub".data (Split (a ++ b) "#".data) = true ↔
      ("pub".data ∈ (Split a "#".data).dropLast ∨
        "pub".data ∈ (Split b "#".data).tail ∨
        (Split a "#".data).getLastD [] ++ (Split b "#".data).headD [] = "pub".data) := by
  rw [IsIncludeElement_iff]
  show "pub".data ∈ Split (a ++ b) ['#'] ↔ _
  rw [Split_append_pieces '#' b a.length a le_rfl]
  simp only [List.mem_append, List.mem_singleton]
  constructor
  · rintro ((h | h) | h)
    · exact Or.inl h
    · exact Or.inr (Or.inr h.symm)
    · exact Or.inr (Or.inl h)
  · rintro (h | h | h)
    · exact Or.inl (Or.inl h)
    · exact Or.inr h
    · exact Or.inl (Or.inr h.symm)

theorem CollectMarkdownFiles_nondir (config : Config) (p : GoString) (node : FsNode)
    (st : Walk) (h : IsDir node = false) :
    (CollectMarkdownFiles config p node st).files =
      if "md".data ∈ Split p ".".data then st.files ++ [p] else st.files := by
  have key : (if IsIncludeElement "md".data (Split p ".".data) = true then
        (⟨st.files ++ [p], st.visited ++ [p]⟩ : Walk)
      else ⟨st.files, st.visited ++ [p]⟩).files =
      if "md".data ∈ Split p ".".data then st.files ++ [p] else st.files := by
    by_cases hm : "md".data ∈ Split p ".".data
    · rw [if_pos hm, if_pos ((IsIncludeElement_iff _ _).2 hm)]
    · rw [if_neg hm, if_neg (fun hh => hm ((IsIncludeElement_iff _ _).1 hh))]
  cases node with
  | missing => rw [CollectMarkdownFiles]; exact key
  | file => rw [CollectMarkdownFiles]; exact key
  | unreadable => simp [IsDir] at h
  | dir fs => simp [IsDir] at h

/-! ## Facts about the traversal -/

theorem CollectMarkdownFiles_eq (config : Config) (entry : GoString) (node : FsNode)
    (st : Walk) :
    CollectMarkdownFiles config entry node st =
      if IsDir node then
        match ReadDir node with
        | none => ⟨st.files, st.visited ++ [entry]⟩
        | some fs => collectLoop config entry fs ⟨st.files, st.visited ++ [entry]⟩
      else if IsIncludeElement "md".data (Split entry ".".data) then
        ⟨st.files ++ [entry], st.visited ++ [entry]⟩
      else ⟨st.files, st.visited ++ [entry]⟩ := by
  cases node <;> simp [CollectMarkdownFiles, IsDir, ReadDir]

theorem Reached_self (config : Config) (P : FsNode → Prop) (entry : GoString)
    (node : FsNode) (h : P node) : Reached config P entry node entry :=
  ⟨[], node, FsNode.Leads.here node, h, by simp, rfl⟩

theorem Reached_of_via (config : Config) (P : FsNode → Prop) (entry : GoString)
    (fs : FsList) (p : GoString) (h : ReachedVia config P entry fs p) :
    Reached config P entry (.dir fs) p := by
  obtain ⟨name, child, hholds, hname, names, target, hleads, hP, hall, rfl⟩ := h
  refine ⟨name :: names, target, FsNode.Leads.down hholds hleads, hP, ?_, rfl⟩
  intro n hn
  rcases List.mem_cons.1 hn with rfl | hn
  · exact hname
  · exact hall n hn

theorem ReachedVia_tail (config : Config) (P : FsNode → Prop) (entry name : GoString)
    (node : FsNode) (rest : FsList) (p : GoString) (h : ReachedVia config P entry rest p) :
    ReachedVia config P entry (.cons name node rest) p := by
  obtain ⟨n, child, hholds, hrest⟩ := h
  exact ⟨n, child, FsList.Holds.tail name node rest hholds, hrest⟩

theorem mem_concat_cases {p entry : GoString} {l : List GoString} (h : p ∈ l ++ [entry]) :
    p ∈ l ∨ p = entry := by
  rcases List.mem_append.1 h with h | h
  · exact Or.inl h
  · exact Or.inr (List.mem_singleton.1 h)

mutual
theorem CollectMarkdownFiles_reached (config : Config) :
    ∀ (node : FsNode) (entry : GoString) (st : Walk),
      (∀ p ∈ (CollectMarkdownFiles config entry node st).visited,
        p ∈ st.visited ∨ Reached config (fun _ => True) entry node p) ∧
      (∀ p ∈ (CollectMarkdownFiles config entry node st).files,
        p ∈ st.files ∨ Reached config (fun t => IsDir t = false) entry node p)
  | .dir fs, entry, st => by
    rw [CollectMarkdownFiles]
    obtain ⟨hv, hf⟩ := collectLoop_reached config fs entry ⟨st.files, st.visited ++ [entry]⟩
    refine ⟨fun p hp => ?_, fun p hp => ?_⟩
    · rcases hv p hp with h | h
      · rcases mem_concat_cases h with h | rfl
        · exact Or.inl h
        · exact Or.inr (Reached_self config _ p _ trivial)
      · exact Or.inr (Reached_of_via config _ entry fs p h)
    · rcases hf p hp with h | h
      · exact Or.inl h
      · exact Or.inr (Reached_of_via config _ entry fs p h)
  | .unreadable, entry, st => by
    rw [CollectMarkdownFiles]
    refine ⟨fun p hp => ?_, fun p hp => Or.inl hp⟩
    rcases mem_concat_cases hp with h | rfl
    · exact Or.inl h
    · exact Or.inr (Reached_self config _ p _ trivial)
  | .file, entry, st => by
    rw [CollectMarkdownFiles]
    split
    · refine ⟨fun p hp => ?_, fun p hp => ?_⟩
      · rcases mem_concat_cases hp with h | rfl
        · exact Or.inl h
        · exact Or.inr (Reached_self config _ p _ trivial)
      · rcases mem_concat_cases hp with h | rfl
        · exact Or.inl h
        · exact Or.inr (Reached_self config _ p .file rfl)
    · refine ⟨fun p hp => ?_, fun p hp => Or.inl hp⟩
      rcases mem_concat_cases hp with h | rfl
      · exact Or.inl h
      · exact Or.inr (Reached_self config _ p _ trivial)
  | .missing, entry, st => by
    rw [CollectMarkdownFiles]
    split
    · refine ⟨fun p hp => ?_, fun p hp => ?_⟩
      · rcases mem_concat_cases hp with h | rfl
        · exact Or.inl h
        · exact Or.inr (Reached_self config _ p _ trivial)
      · rcases mem_concat_cases hp with h | rfl
        · exact Or.inl h
        · exact Or.inr (Reached_self config _ p .missing rfl)
    · refine ⟨fun p hp => ?_, fun p hp => Or.inl hp⟩
      rcases mem_concat_cases hp with h | rfl
      · exact Or.inl h
      · exact Or.inr (Reached_self config _ p _ trivial)
theorem collectLoop_reached (config : Config) :
    ∀ (fs : FsList) (entry : GoString) (st : Walk),
      (∀ p ∈ (collectLoop config entry fs st).visited,
        p ∈ st.visited ∨ ReachedVia config (fun _ => True) entry fs p) ∧
      (∀ p ∈ (collectLoop config entry fs st).files,
        p ∈ st.files ∨ ReachedVia config (fun t => IsDir t = false) entry fs p)
  | .nil, entry, st => by
    rw [collectLoop]
    exact ⟨fun p hp => Or.inl hp, fun p hp => Or.inl hp⟩
  | .cons name node rest, entry, st => by
    rw [collectLoop]
    split
    · obtain ⟨hv, hf⟩ := collectLoop_reached config rest entry st
      refine ⟨fun p hp => ?_, fun p hp => ?_⟩
      · exact (hv p hp).imp id (ReachedVia_tail config _ entry name node rest p)
      · exact (hf p hp).imp id (ReachedVia_tail config _ entry name node rest p)
    · rename_i hname
      have hname1 : name ∉ config.Src.Exclude :=
        fun hmem => hname ((IsIncludeElement_iff _ _).2 hmem)
      obtain ⟨hv, hf⟩ := collectLoop_reached config rest entry
        (CollectMarkdownFiles config (entry ++ [PathSeparator] ++ name) node st)
      obtain ⟨hv1, hf1⟩ :=
        CollectMarkdownFiles_reached config node (entry ++ [PathSeparator] ++ name) st
      refine ⟨fun p hp => ?_, fun p hp => ?_⟩
      · rcases hv p hp with h | h
        · rcases hv1 p h with h | h
          · exact Or.inl h
          · exact Or.inr ⟨name, node, FsList.Holds.head name node rest, hname1, h⟩
        · exact Or.inr (ReachedVia_tail config _ entry name node rest p h)
      · rcases hf p hp with h | h
        · rcases hf1 p h with h | h
          · exact Or.inl h
          · exact Or.inr ⟨name, node, FsList.Holds.head name node rest, hname1, h⟩
        · exact Or.inr (ReachedVia_tail config _ entry name node rest p h)
end

/-! ## Facts about the command runner and the business functions -/

theorem Command_error (w : World) (command : GoString) (args : List GoString)
    (onError : GoString → List Effect) (tr : Trace) (err : GoString)
    (h : w.execOutput tr command args = .error err) :
    Command w command args onError tr =
      .exited (tr ++ [Effect.exec command args, Effect.println (invocationLine command args)]
        ++ onError err ++ [Effect.fatal ("❌ An error occured!!!\n".data ++ err)]) := by
  simp [Command, h]

theorem Command_ok (w : World) (command : GoString) (args : List GoString)
    (onError : GoString → List Effect) (tr : Trace) (out : GoString)
    (h : w.execOutput tr command args = .ok out) :
    Command w command args onError tr =
      .returned (tr ++ [Effect.exec command args,
        Effect.println (invocationLine command args)] ++ okLog out) := by
  by_cases ho : out.length > 0
  · simp [Command, h, okLog, ho]
  · simp [Command, h, okLog, ho]

theorem Command_trace (w : World) (command : GoString) (args : List GoString)
    (onError : GoString → List Effect) (tr : Trace) :
    ∃ rest, (Command w command args onError tr).trace =
      tr ++ Effect.exec command args :: Effect.println (invocationLine command args) :: rest := by
  cases h : w.execOutput tr command args with
  | error err =>
    rw [Command_error w command args onError tr err h]
    exact ⟨onError err ++ [Effect.fatal ("❌ An error occured!!!\n".data ++ err)],
      by simp [Run.trace]⟩
  | ok out =>
    rw [Command_ok w command args onError tr out h]
    exact ⟨okLog out, by simp [Run.trace]⟩

theorem steps_append (a b : Trace) : steps (a ++ b) = steps a ++ steps b := by
  simp [steps]

theorem steps_okLog (out : GoString) : steps (okLog out) = [] := by
  unfold okLog steps
  split <;> simp

theorem PrepareBlogPost_append (w : World) (config : Config) (rest : List GoString) :
    ∀ (pre : List GoString) (tr : Trace),
      PrepareBlogPost w config (pre ++ rest) tr =
        (PrepareBlogPost w config pre tr).andThen (PrepareBlogPost w config rest)
  | [], tr => rfl
  | f :: pre, tr => by
    rw [List.cons_append, PrepareBlogPost, PrepareBlogPost]
    simp only []
    cases Command w "hugo".data ["new".data, scaffoldArg (Base (newPath f))]
        (fun _ => [Effect.remove (w.pathJoin config.Blog.PostsDir (Base (newPath f)))])
        (tr ++ [Effect.println (newPath f)] ++ [Effect.chdir config.Blog.HugoBuildDir]) with
    | exited t => rfl
    | returned t =>
      simp only [Run.andThen]
      cases w.readFile t f with
      | error e => rfl
      | ok srcByte =>
        simp only []
        cases w.writeFile (t ++ [Effect.readFile f])
            (w.pathJoin config.Blog.PostsDir (Base (newPath f))) srcByte with
        | some e => rfl
        | none => exact PrepareBlogPost_append w config rest pre _

theorem PrepareBlogPost_scaffold_error (w : World) (config : Config) (f : GoString)
    (post : List GoString) (tr : Trace) (err : GoString)
    (hfail : w.execOutput
        (tr ++ [Effect.println (newPath f), Effect.chdir config.Blog.HugoBuildDir])
        "hugo".data ["new".data, scaffoldArg (Base (newPath f))] = .error err) :
    PrepareBlogPost w config (f :: post) tr =
      .exited (tr ++
        [ Effect.println (newPath f),
          Effect.chdir config.Blog.HugoBuildDir,
          Effect.exec "hugo".data ["new".data, scaffoldArg (Base (newPath f))],
          Effect.println
            (invocationLine "hugo".data ["new".data, scaffoldArg (Base (newPath f))]),
          Effect.remove (w.pathJoin config.Blog.PostsDir (Base (newPath f))),
          Effect.fatal ("❌ An error occured!!!\n".data ++ err) ]) := by
  have hfail2 : w.execOutput
      (tr ++ [Effect.println (newPath f)] ++ [Effect.chdir config.Blog.HugoBuildDir])
      "hugo".data ["new".data, scaffoldArg (Base (newPath f))] = .error err := by
    rw [List.append_assoc]
    exact hfail
  rw [PrepareBlogPost]
  simp only []
  rw [Command_error w _ _ _ _ err hfail2]
  simp [Run.andThen]

theorem steps_nil : steps [] = [] := rfl

theorem steps_println (line : GoString) (tr : Trace) :
    steps (Effect.println line :: tr) = steps tr := by
  simp [steps]

theorem steps_chdir (dir : GoString) (tr : Trace) :
    steps (Effect.chdir dir :: tr) = Effect.chdir dir :: steps tr := by
  simp [steps]

theorem steps_exec (command : GoString) (args : List GoString) (tr : Trace) :
    steps (Effect.exec command args :: tr) = Effect.exec command args :: steps tr := by
  simp [steps]

theorem runScript_nil (w : World) (tr : Trace) : runScript w [] tr = .returned tr := rfl

theorem runScript_say (w : World) (line : GoString) (rest : List Step) (tr : Trace) :
    runScript w (Step.say line :: rest) tr = runScript w rest (tr ++ [Effect.println line]) :=
  rfl

theorem runScript_cd (w : World) (dir : GoString) (rest : List Step) (tr : Trace) :
    runScript w (Step.cd dir :: rest) tr = runScript w rest (tr ++ [Effect.chdir dir]) :=
  rfl

theorem runScript_run (w : World) (command : GoString) (args : List GoString)
    (rest : List Step) (tr : Trace) :
    runScript w (Step.run command args :: rest) tr =
      (Command w command args (fun _ => []) tr).andThen (fun t => runScript w rest t) := by
  rw [runScript]
  cases h : w.execOutput tr command args with
  | error err =>
    rw [Command_error w command args _ tr err h]
    simp [Run.andThen]
  | ok out =>
    rw [Command_ok w command args _ tr out h]
    rfl

theorem andThen_returned (r : Run) : r.andThen Run.returned = r := by
  cases r <;> rfl

theorem UpdateGithubPage_eq_runScript (w : World) (config : Config) (tr : Trace) :
    UpdateGithubPage w config tr = runScript w (publisherScript config) tr := by
  unfold UpdateGithubPage publisherScript
  simp only [runScript_say, runScript_cd, runScript_run, runScript_nil, andThen_returned]

theorem runScript_outcome (w : World) :
    ∀ (script : List Step) (tr : Trace),
      (∃ tr2, runScript w script tr = .returned tr2 ∧
        steps tr2 = steps tr ++ scriptSteps script) ∨
      (∃ (pre : List Step) (command : GoString) (args : List GoString) (post : List Step)
          (h : Trace) (err : GoString),
        script = pre ++ Step.run command args :: post ∧
        w.execOutput h command args = .error err ∧
        steps h = steps tr ++ scriptSteps pre ∧
        runScript w script tr =
          .exited (h ++ [Effect.exec command args,
            Effect.println (invocationLine command args),
            Effect.fatal ("❌ An error occured!!!\n".data ++ err)]))
  | [], tr => Or.inl ⟨tr, rfl, by simp [scriptSteps]⟩
  | Step.say line :: rest, tr => by
    rw [runScript]
    rcases runScript_outcome w rest (tr ++ [Effect.println line]) with
      ⟨tr2, h1, h2⟩ | ⟨pre, c, a, post, h, err, h1, h2, h3, h4⟩
    · refine Or.inl ⟨tr2, h1, ?_⟩
      rw [h2, steps_append, steps_println, steps_nil, List.append_nil, scriptSteps]
    · refine Or.inr ⟨Step.say line :: pre, c, a, post, h, err, by rw [h1]; rfl, h2, ?_, h4⟩
      rw [h3, steps_append, steps_println, steps_nil, List.append_nil, scriptSteps]
  | Step.cd dir :: rest, tr => by
    rw [runScript]
    rcases runScript_outcome w rest (tr ++ [Effect.chdir dir]) with
      ⟨tr2, h1, h2⟩ | ⟨pre, c, a, post, h, err, h1, h2, h3, h4⟩
    · refine Or.inl ⟨tr2, h1, ?_⟩
      rw [h2, steps_append, steps_chdir, steps_nil, scriptSteps]
      simp
    · refine Or.inr ⟨Step.cd dir :: pre, c, a, post, h, err, by rw [h1]; rfl, h2, ?_, h4⟩
      rw [h3, steps_append, steps_chdir, steps_nil, scriptSteps]
      simp
  | Step.run command args :: rest, tr => by
    rw [runScript]
    cases hx : w.execOutput tr command args with
    | error err =>
      exact Or.inr ⟨[], command, args, rest, tr, err, rfl, hx, by simp [scriptSteps], rfl⟩
    | ok out =>
      simp only []
      rcases runScript_outcome w rest
          (tr ++ [Effect.exec command args, Effect.println (invocationLine command args)]
            ++ okLog out) with
        ⟨tr2, h1, h2⟩ | ⟨pre, c, a, post, h, err, h1, h2, h3, h4⟩
      · refine Or.inl ⟨tr2, h1, ?_⟩
        rw [h2, steps_append, steps_append, steps_okLog, steps_exec, steps_println,
          steps_nil, scriptSteps]
        simp
      · refine Or.inr ⟨Step.run command args :: pre, c, a, post, h, err,
          by rw [h1]; rfl, h2, ?_, h4⟩
        rw [h3, steps_append, steps_append, steps_okLog, steps_exec, steps_println,
          steps_nil, scriptSteps]
        simp

theorem main_of_none_selected (w : World) (config : Config) (root : FsNode) (tr : Trace)
    (h : FilterNotPublishedMarkdownFile
      (CollectMarkdownFiles config config.Src.BaseDir root ⟨[], []⟩).files = []) :
    main w config root tr = .returned (tr ++ [Effect.println "📉 Noting to do".data]) := by
  unfold main
  simp only []
  rw [h]
  rfl

theorem main_of_some_selected (w : World) (config : Config) (root : FsNode) (tr tr1 : Trace)
    (h : FilterNotPublishedMarkdownFile
      (CollectMarkdownFiles config config.Src.BaseDir root ⟨[], []⟩).files ≠ [])
    (hprep : PrepareBlogPost w config
      (FilterNotPublishedMarkdownFile
        (CollectMarkdownFiles config config.Src.BaseDir root ⟨[], []⟩).files) tr
        = .returned tr1) :
    main w config root tr = UpdateGithubPage w config tr1 := by
  unfold main
  simp only []
  rw [hprep]
  simp only [Run.andThen]
  rw [if_pos (List.length_pos.2 h)]

/-! ## The claims -/

/-- C1: `FilterNotPublishedMarkdownFile(files)` is the sub-sequence of `files`,
order and multiplicities kept, of the paths which, split on `#`, have a piece
exactly `pub`; `note#pub#.md` is kept and `notepub.md` is dropped. -/
theorem FilterNotPublishedMarkdownFile_eq_filter :
    (∀ files : List GoString,
      FilterNotPublishedMarkdownFile files
        = files.filter (fun p => decide ("pub".data ∈ Split p "#".data))) ∧
    FilterNotPublishedMarkdownFile ["note#pub#.md".data, "notepub.md".data]
      = ["note#pub#.md".data] := by
  refine ⟨fun files => ?_, by decide⟩
  unfold FilterNotPublishedMarkdownFile
  rw [filterLoop_eq (fun p => IsIncludeElement "pub".data (Split p "#".data)) files []]
  simp only [List.nil_append]
  congr 1
  funext p
  rw [Bool.eq_iff_iff, IsIncludeElement_iff]
  simp

/-- C2 as stated fails: the name `pub` is selected by the filter although it
neither contains `#pub#`, nor ends in `#pub`, nor starts with `pub#`. -/
theorem publication_filter_bare_pub :
    IsIncludeElement "pub".data (Split "pub".data "#".data) = true ∧
    ¬ ("#pub#".data <:+: "pub".data ∨ "#pub".data <:+ "pub".data
        ∨ "pub#".data <+: "pub".data) := by
  decide

/-- C2, amended: the filter selects `f` if and only if `f` contains `#pub#`, or
has the suffix `#pub`, or starts with `pub#`, or is exactly `pub`. -/
theorem publication_filter_iff (f : GoString) :
    IsIncludeElement "pub".data (Split f "#".data) = true ↔
      ("#pub#".data <:+: f ∨ "#pub".data <:+ f ∨ "pub#".data <+: f ∨ f = "pub".data) := by
  rw [IsIncludeElement_iff]
  exact pub_mem_Split_iff f

/-- C4: the published name drops the first `#pub#` only: when the marker at
`a ++ "#pub#" ++ b` is the first one the result is `a ++ b`, when there is no
marker the name is unchanged, and `a#pub#b#pub#.md` becomes `ab#pub#.md`. -/
theorem newPath_removes_first_marker :
    (∀ a b : GoString, ¬ "#pub#".data <:+: a ++ "#pub".data →
      newPath (a ++ "#pub#".data ++ b) = a ++ b) ∧
    (∀ f : GoString, ¬ "#pub#".data <:+: f → newPath f = f) ∧
    newPath "a#pub#b#pub#.md".data = "ab#pub#.md".data :=
  ⟨newPath_of_first, newPath_of_absent, by decide⟩

/-- Witness for C4: the marker of `x#pub#y#pub#` at position 1 is the first. -/
theorem newPath_removes_first_marker_witness :
    newPath ("x".data ++ "#pub#".data ++ "y#pub#".data) = "x".data ++ "y#pub#".data ∧
    newPath "plain.md".data = "plain.md".data :=
  ⟨newPath_removes_first_marker.1 "x".data "y#pub#".data (by decide),
    newPath_removes_first_marker.2.1 "plain.md".data (by decide)⟩

/-- C5 as stated fails: a selected name with two markers keeps one after the
renaming, and a selected name whose marker has no closing `#` is not renamed
at all; both published names are selected again. -/
theorem published_name_selected_again :
    (IsIncludeElement "pub".data (Split "/vault/a#pub#b#pub#.md".data "#".data) = true ∧
      newPath "/vault/a#pub#b#pub#.md".data = "/vault/ab#pub#.md".data ∧
      IsIncludeElement "pub".data (Split (newPath "/vault/a#pub#b#pub#.md".data) "#".data)
        = true) ∧
    (IsIncludeElement "pub".data (Split "/vault/a.md.#pub".data "#".data) = true ∧
      newPath "/vault/a.md.#pub".data = "/vault/a.md.#pub".data ∧
      IsIncludeElement "pub".data (Split (newPath "/vault/a.md.#pub".data) "#".data)
        = true) := by
  decide

/-- C5, amended: a selected name without `#pub#` keeps its name and stays
selected; for a name `a ++ "#pub#" ++ b` whose first marker follows `a`, the
published name is `a ++ b`, and the filter selects it again exactly when a
piece `pub` is left: a piece of `a` other than its last, a piece of `b` other
than its first, or the last piece of `a` joined with the first piece of `b`. -/
theorem published_name_selected_iff :
    (∀ a b : GoString, ¬ "#pub#".data <:+: a ++ "#pub".data →
      IsIncludeElement "pub".data (Split (a ++ "#pub#".data ++ b) "#".data) = true ∧
      newPath (a ++ "#pub#".data ++ b) = a ++ b ∧
      (IsIncludeElement "pub".data (Split (newPath (a ++ "#pub#".data ++ b)) "#".data) = true
        ↔ ("pub".data ∈ (Split a "#".data).dropLast ∨
            "pub".data ∈ (Split b "#".data).tail ∨
            (Split a "#".data).getLastD [] ++ (Split b "#".data).headD [] = "pub".data))) ∧
    (∀ f : GoString, ¬ "#pub#".data <:+: f →
      IsIncludeElement "pub".data (Split f "#".data) = true →
      newPath f = f ∧
      IsIncludeElement "pub".data (Split (newPath f) "#".data) = true) := by
  refine ⟨fun a b h => ?_, fun f h hsel => ?_⟩
  · have hnew := newPath_of_first a b h
    refine ⟨?_, hnew, ?_⟩
    · rw [IsIncludeElement_iff, pub_mem_Split_iff]
      exact Or.inl ⟨a, b, rfl⟩
    · rw [hnew]
      exact selected_append_iff a b
  · have hnew := newPath_of_absent f h
    rw [hnew]
    exact ⟨rfl, hsel⟩

/-- Witness for C5: in `/vault/x#y#pub#.md` the marker is the first and no piece
`pub` is left behind; `/vault/a.md.#pub` has no marker and keeps its name. -/
theorem published_name_selected_iff_witness :
    (IsIncludeElement "pub".data
        (Split ("/vault/x#y".data ++ "#pub#".data ++ ".md".data) "#".data) = true ∧
      newPath ("/vault/x#y".data ++ "#pub#".data ++ ".md".data)
        = "/vault/x#y".data ++ ".md".data ∧
      (IsIncludeElement "pub".data
          (Split (newPath ("/vault/x#y".data ++ "#pub#".data ++ ".md".data)) "#".data) = true
        ↔ ("pub".data ∈ (Split "/vault/x#y".data "#".data).dropLast ∨
            "pub".data ∈ (Split ".md".data "#".data).tail ∨
            (Split "/vault/x#y".data "#".data).getLastD []
              ++ (Split ".md".data "#".data).headD [] = "pub".data))) ∧
    (newPath "/vault/a.md.#pub".data = "/vault/a.md.#pub".data ∧
      IsIncludeElement "pub".data (Split (newPath "/vault/a.md.#pub".data) "#".data) = true) :=
  ⟨published_name_selected_iff.1 "/vault/x#y".data ".md".data (by decide),
    published_name_selected_iff.2 "/vault/a.md.#pub".data (by decide) (by decide)⟩

/-- C9: the claim holds and the code departs from it.  A name without `.` is
not a markdown name, yet the test accepts the entry `md`, so that discovery
started on a plain file `md` returns it, and it accepts the dotless name
`readme` below a directory `x.md.d`; neither path ends in `.md`. -/
theorem dotless_entry_accepted :
    ('.' ∉ "md".data ∧ ¬ ".md".data <:+ "md".data ∧
      IsIncludeElement "md".data (Split "md".data ".".data) = true ∧
      (CollectMarkdownFiles ⟨⟨[], [], [], []⟩, ⟨"md".data, []⟩⟩ "md".data .file
        ⟨[], []⟩).files = ["md".data]) ∧
    ('.' ∉ Base "/vault/x.md.d/readme".data ∧
      ¬ ".md".data <:+ "/vault/x.md.d/readme".data ∧
      IsIncludeElement "md".data (Split "/vault/x.md.d/readme".data ".".data) = true) := by
  decide

/-- C3: the claim holds and the code departs from it.  The file name of
`/vault/x.md.d/readme` is `readme`, which split on `.` has no piece `md`, and
the path does not end in `.md`; the code splits the whole path, finds the piece
`md` of the directory name and appends the path to the accumulator. -/
theorem collect_tests_whole_path :
    Base "/vault/x.md.d/readme".data = "readme".data ∧
    "md".data ∉ Split (Base "/vault/x.md.d/readme".data) ".".data ∧
    ¬ ".md".data <:+ "/vault/x.md.d/readme".data ∧
    Split "/vault/x.md.d/readme".data ".".data
      = ["/vault/x".data, "md".data, "d/readme".data] ∧
    (CollectMarkdownFiles ⟨⟨[], [], [], []⟩, ⟨"/vault".data, []⟩⟩
        "/vault/x.md.d/readme".data .file ⟨["/vault/z.md".data], []⟩).files
      = ["/vault/z.md".data, "/vault/x.md.d/readme".data] := by
  decide

/-- C6 as stated fails at the starting path: with `skip` excluded, discovery
started at `/vault/skip` lists that directory and returns `/vault/skip/c.md`,
a path under a directory whose base name is excluded. -/
theorem exclusion_not_applied_to_start :
    Base "/vault/skip".data ∈ ["skip".data] ∧
    ("/vault/skip".data ++ [PathSeparator]) <+: "/vault/skip/c.md".data ∧
    (CollectMarkdownFiles ⟨⟨[], [], [], []⟩, ⟨"/vault/skip".data, ["skip".data]⟩⟩
        "/vault/skip".data (.dir (.cons "c.md".data .file .nil)) ⟨[], []⟩).files
      = ["/vault/skip/c.md".data] := by
  decide

/-- C6, amended: every entry the traversal is called on, and every path it
returns, is the starting path followed by a chain of names, each the name of a
child listed in the directory reached so far, none of which is in the exclusion
set, at any depth; a returned path ends at something that is not a directory.
The starting path itself is not checked.  For the vault `a.md`, `b#pub#.md`,
`skip/c#pub#.md` with `skip` excluded, discovery visits `/vault` and the two
files and returns the two files. -/
theorem CollectMarkdownFiles_below_start :
    (∀ (config : Config) (entry : GoString) (node : FsNode) (st : Walk) (p : GoString),
      (p ∈ (CollectMarkdownFiles config entry node st).visited →
        p ∈ st.visited ∨
          ∃ (names : List GoString) (target : FsNode),
            node.Leads names target ∧ (∀ n ∈ names, n ∉ config.Src.Exclude) ∧
              p = below entry names) ∧
      (p ∈ (CollectMarkdownFiles config entry node st).files →
        p ∈ st.files ∨
          ∃ (names : List GoString) (target : FsNode),
            node.Leads names target ∧ IsDir target = false ∧
              (∀ n ∈ names, n ∉ config.Src.Exclude) ∧ p = below entry names)) ∧
    CollectMarkdownFiles demoConfig "/vault".data demoVault ⟨[], []⟩
      = ⟨["/vault/a.md".data, "/vault/b#pub#.md".data],
          ["/vault".data, "/vault/a.md".data, "/vault/b#pub#.md".data]⟩ := by
  refine ⟨fun config entry node st p => ?_, by decide⟩
  obtain ⟨hv, hf⟩ := CollectMarkdownFiles_reached config node entry st
  refine ⟨fun hp => ?_, fun hp => hf p hp⟩
  rcases hv p hp with h | ⟨names, target, hl, -, hall, rfl⟩
  · exact Or.inl h
  · exact Or.inr ⟨names, target, hl, hall, rfl⟩

/-- Witness for C6: in the vault of the example, the returned `/vault/a.md` is
`/vault` followed by a chain of listed names that are not excluded. -/
theorem CollectMarkdownFiles_below_start_witness :
    "/vault/a.md".data ∈ ([] : List GoString) ∨
      ∃ (names : List GoString) (target : FsNode),
        demoVault.Leads names target ∧ IsDir target = false ∧
          (∀ n ∈ names, n ∉ demoConfig.Src.Exclude) ∧
            "/vault/a.md".data = below "/vault".data names :=
  (CollectMarkdownFiles_below_start.1 demoConfig "/vault".data demoVault ⟨[], []⟩
    "/vault/a.md".data).2 (by decide)

/-- C7: when the files before `f` have been processed and the scaffold command
fails for `f`, the run ends in `log.Fatalf` right after the removal of
`postsDir/<base>`: for `f` the trace holds the log line, the directory change,
the command, its invocation line, the removal and the fatal message, hence no
read, write or rename of `f`, and nothing at all for the files after `f`. -/
theorem scaffold_failure_aborts (w : World) (config : Config) (pre post : List GoString)
    (f : GoString) (tr0 tr1 : Trace) (err : GoString)
    (hpre : PrepareBlogPost w config pre tr0 = .returned tr1)
    (hfail : w.execOutput
        (tr1 ++ [Effect.println (newPath f), Effect.chdir config.Blog.HugoBuildDir])
        "hugo".data ["new".data, scaffoldArg (Base (newPath f))] = .error err) :
    PrepareBlogPost w config (pre ++ f :: post) tr0 =
      .exited (tr1 ++
        [ Effect.println (newPath f),
          Effect.chdir config.Blog.HugoBuildDir,
          Effect.exec "hugo".data ["new".data, scaffoldArg (Base (newPath f))],
          Effect.println
            (invocationLine "hugo".data ["new".data, scaffoldArg (Base (newPath f))]),
          Effect.remove (w.pathJoin config.Blog.PostsDir (Base (newPath f))),
          Effect.fatal ("❌ An error occured!!!\n".data ++ err) ]) := by
  rw [PrepareBlogPost_append, hpre]
  exact PrepareBlogPost_scaffold_error w config f post tr1 err hfail

/-- Witness for C7: of three selected files the second one cannot be
scaffolded; the first is published, the second is cleaned up, the third is
never touched. -/
theorem scaffold_failure_aborts_witness :
    PrepareBlogPost stubbornWorld demoConfig
        ["/vault/a#pub#.md".data, "/vault/b#pub#.md".data, "/vault/c#pub#.md".data] [] =
      .exited
        [ Effect.println "/vault/a.md".data,
          Effect.chdir "/blog/site".data,
          Effect.exec "hugo".data ["new".data, "posts/a.md".data],
          Effect.println "👉🏼 hugo new posts/a.md".data,
          Effect.readFile "/vault/a#pub#.md".data,
          Effect.writeFile "/blog/site/content/posts/a.md".data [35, 32, 98] 216,
          Effect.rename "/vault/a#pub#.md".data "/vault/a.md".data,
          Effect.println "/vault/b.md".data,
          Effect.chdir "/blog/site".data,
          Effect.exec "hugo".data ["new".data, "posts/b.md".data],
          Effect.println "👉🏼 hugo new posts/b.md".data,
          Effect.remove "/blog/site/content/posts/b.md".data,
          Effect.fatal "❌ An error occured!!!\nexit status 1".data ] :=
  scaffold_failure_aborts stubbornWorld demoConfig ["/vault/a#pub#.md".data]
    ["/vault/c#pub#.md".data] "/vault/b#pub#.md".data []
    [ Effect.println "/vault/a.md".data,
      Effect.chdir "/blog/site".data,
      Effect.exec "hugo".data ["new".data, "posts/a.md".data],
      Effect.println "👉🏼 hugo new posts/a.md".data,
      Effect.readFile "/vault/a#pub#.md".data,
      Effect.writeFile "/blog/site/content/posts/a.md".data [35, 32, 98] 216,
      Effect.rename "/vault/a#pub#.md".data "/vault/a.md".data ]
    "exit status 1".data (by decide) rfl

/-- C8 as stated fails: when the build command fails, the run ends right
behind it; one file was selected and materialised, and neither add/commit/push
sequence is run. -/
theorem publisher_stops_at_failed_build :
    FilterNotPublishedMarkdownFile
        (CollectMarkdownFiles demoConfig demoConfig.Src.BaseDir demoVault ⟨[], []⟩).files
      = ["/vault/b#pub#.md".data] ∧
    PrepareBlogPost brokenBuildWorld demoConfig ["/vault/b#pub#.md".data] [] =
      .returned
        [ Effect.println "/vault/b.md".data,
          Effect.chdir "/blog/site".data,
          Effect.exec "hugo".data ["new".data, "posts/b.md".data],
          Effect.println "👉🏼 hugo new posts/b.md".data,
          Effect.readFile "/vault/b#pub#.md".data,
          Effect.writeFile "/blog/site/content/posts/b.md".data [35, 32, 98] 216,
          Effect.rename "/vault/b#pub#.md".data "/vault/b.md".data ] ∧
    main brokenBuildWorld demoConfig demoVault [] =
      .exited
        [ Effect.println "/vault/b.md".data,
          Effect.chdir "/blog/site".data,
          Effect.exec "hugo".data ["new".data, "posts/b.md".data],
          Effect.println "👉🏼 hugo new posts/b.md".data,
          Effect.readFile "/vault/b#pub#.md".data,
          Effect.writeFile "/blog/site/content/posts/b.md".data [35, 32, 98] 216,
          Effect.rename "/vault/b#pub#.md".data "/vault/b.md".data,
          Effect.println "📝 Building github page".data,
          Effect.chdir "/blog/site".data,
          Effect.exec "hugo".data [],
          Effect.println "👉🏼 hugo".data,
          Effect.fatal "❌ An error occured!!!\nexit status 255".data ] := by
  decide

/-- C8, amended: in `main`, when the filter selects nothing the run returns
normally after logging the nothing-to-do line and nothing else (no command, no
change of directory); when it selects something and `PrepareBlogPost` returns,
the publisher is run from there: the build and the two add/commit/push
sequences in order, each command only if every command before it succeeded.
Either all of them are run and the run returns, or one of them failed in the
history it was run in and the process exits right behind it. -/
theorem main_publishes_iff_selected (w : World) (config : Config) (root : FsNode)
    (tr : Trace) :
    (FilterNotPublishedMarkdownFile
        (CollectMarkdownFiles config config.Src.BaseDir root ⟨[], []⟩).files = [] →
      main w config root tr = .returned (tr ++ [Effect.println "📉 Noting to do".data])) ∧
    (FilterNotPublishedMarkdownFile
        (CollectMarkdownFiles config config.Src.BaseDir root ⟨[], []⟩).files ≠ [] →
      ∀ tr1 : Trace,
        PrepareBlogPost w config
          (FilterNotPublishedMarkdownFile
            (CollectMarkdownFiles config config.Src.BaseDir root ⟨[], []⟩).files) tr
          = .returned tr1 →
        main w config root tr = runScript w (publisherScript config) tr1 ∧
        ((∃ tr2, main w config root tr = .returned tr2 ∧
            steps tr2 = steps tr1 ++ publishSteps config) ∨
          (∃ (pre : List Step) (command : GoString) (args : List GoString)
              (post : List Step) (h : Trace) (err : GoString),
            publisherScript config = pre ++ Step.run command args :: post ∧
            w.execOutput h command args = .error err ∧
            steps h = steps tr1 ++ scriptSteps pre ∧
            main w config root tr =
              .exited (h ++ [Effect.exec command args,
                Effect.println (invocationLine command args),
                Effect.fatal ("❌ An error occured!!!\n".data ++ err)])))) := by
  refine ⟨main_of_none_selected w config root tr, fun h tr1 hprep => ?_⟩
  have hmain := main_of_some_selected w config root tr tr1 h hprep
  rw [hmain, UpdateGithubPage_eq_runScript]
  exact ⟨rfl, runScript_outcome w (publisherScript config) tr1⟩

/-- Witness for C8: on the quiet vault only the nothing-to-do line is logged;
on the example vault one file is materialised and then the publisher is
run. -/
theorem main_publishes_iff_selected_witness :
    main calmWorld demoConfig quietVault [] =
        .returned [Effect.println "📉 Noting to do".data] ∧
    main calmWorld demoConfig demoVault [] =
      runScript calmWorld (publisherScript demoConfig)
        (PrepareBlogPost calmWorld demoConfig ["/vault/b#pub#.md".data] []).trace :=
  ⟨(main_publishes_iff_selected calmWorld demoConfig quietVault []).1 (by decide),
    ((main_publishes_iff_selected calmWorld demoConfig demoVault []).2 (by decide)
      (PrepareBlogPost calmWorld demoConfig ["/vault/b#pub#.md".data] []).trace
      (by decide)).1⟩

/-- C10 as stated fails: the external process is run first and its invocation
line is logged afterwards; the trace of a successful `hugo` starts with the
command, the log line follows. -/
theorem process_runs_before_log :
    (Command calmWorld "hugo".data [] (fun _ => []) []).trace =
      [Effect.exec "hugo".data [], Effect.println "👉🏼 hugo".data] := by
  decide

/-- C10, amended: the external process is run first and the invocation line is
logged right after it, before the result is looked at; on failure the effects
of the error callback come next and the fatal termination follows them,
whatever the callback is. -/
theorem Command_order (w : World) (command : GoString) (args : List GoString)
    (onError : GoString → List Effect) (tr : Trace) :
    (∃ rest, (Command w command args onError tr).trace =
      tr ++ Effect.exec command args
        :: Effect.println (invocationLine command args) :: rest) ∧
    (∀ err, w.execOutput tr command args = .error err →
      Command w command args onError tr =
        .exited (tr ++ [Effect.exec command args,
            Effect.println (invocationLine command args)]
          ++ onError err ++ [Effect.fatal ("❌ An error occured!!!\n".data ++ err)])) :=
  ⟨Command_trace w command args onError tr,
    fun err h => Command_error w command args onError tr err h⟩

/-- Witness for C10: the failing scaffold of `posts/b.md`, with a callback that
removes a file. -/
theorem Command_order_witness :
    Command stubbornWorld "hugo".data ["new".data, "posts/b.md".data]
        (fun _ => [Effect.remove "/blog/site/content/posts/b.md".data]) [] =
      .exited
        [ Effect.exec "hugo".data ["new".data, "posts/b.md".data],
          Effect.println "👉🏼 hugo new posts/b.md".data,
          Effect.remove "/blog/site/content/posts/b.md".data,
          Effect.fatal "❌ An error occured!!!\nexit status 1".data ] :=
  (Command_order stubbornWorld "hugo".data ["new".data, "posts/b.md".data]
    (fun _ => [Effect.remove "/blog/site/content/posts/b.md".data]) []).2
    "exit status 1".data rfl

end AutoSync
